import Mathlib

/-!
# Verification of the perf-test load generator core

Shallow embedding of the Go repository `jvreagan/perf-test` and proofs of the
frozen claims about it.  Conventions of the embedding:

* `time.Duration` values (int64 nanoseconds) are modelled as `ℤ`.
* Go `float64` intermediate arithmetic (`targetAt` interpolation, the
  percentile index, RPS) is modelled by exact rationals `ℚ`; at the integer
  magnitudes this program feeds these expressions the float computation is
  exact, and `math.Round`'s round-half-away-from-zero is modelled explicitly.
* Go `error` values become `Option String` (`none` = nil error).
* Channels, tickers and `context.Context` do not appear; the pure functions
  they invoke (`targetAt`, `Record`/`Snapshot`, `Execute`'s result
  construction, one worker-loop iteration) are embedded, with the
  nondeterministic facts a loop iteration samples (is the context cancelled,
  which `select` branch fired) passed in as explicit booleans.
-/

namespace PerfTest

/-! ## Scheduler (internal/scheduler/scheduler.go) -/

/-- `config.Stage`: one segment of the ramp profile.  `duration` is in
nanoseconds (`time.Duration`), `target` the VU/RPS target, `ramp` the ramp
style string (`""` / `"linear"` / `"step"`). -/
structure Stage where
  duration : ℤ
  target : ℤ
  ramp : String
  deriving Repr, DecidableEq

/-- `math.Round`: nearest integer, rounding half away from zero. -/
def roundHalfAway (q : ℚ) : ℤ :=
  if 0 ≤ q then ⌊q + 1/2⌋ else ⌈q - 1/2⌉

/-- The two `if pct < 0 / if pct > 1` clamps in `Scheduler.targetAt`. -/
def clamp01 (q : ℚ) : ℚ :=
  if q < 0 then 0 else if q > 1 then 1 else q

/-- The body of `Scheduler.targetAt`'s `elapsed <= stageEnd` branch: the value
and done flag produced while inside `stage`, where `last` says whether this is
the final stage (`i == len(s.stages)-1`). -/
def stageValue (stage : Stage) (stageStart prev elapsed : ℤ) (last : Bool) : ℤ × Bool :=
  if stage.duration = 0 ∨ stage.ramp = "step" then
    (stage.target, last)
  else
    let pct : ℚ := clamp01 (((elapsed - stageStart : ℤ) : ℚ) / ((stage.duration : ℤ) : ℚ))
    (roundHalfAway ((prev : ℚ) + ((stage.target - prev : ℤ) : ℚ) * pct), false)

/-- The loop of `Scheduler.targetAt`: walks the remaining stages, carrying the
cumulative start time of the current stage (`stageStart`) and the previous
stage's declared target (`prev`, 0 before the first stage). -/
def targetAtGo (elapsed : ℤ) : List Stage → ℤ → ℤ → ℤ × Bool
  | [], _, _ => (0, true)
  | stage :: rest, stageStart, prev =>
    if elapsed ≤ stageStart + stage.duration then
      stageValue stage stageStart prev elapsed rest.isEmpty
    else
      targetAtGo elapsed rest (stageStart + stage.duration) stage.target

/-- `Scheduler.targetAt`: interpolated VU target (and done flag) at the given
elapsed time. -/
def targetAt (stages : List Stage) (elapsed : ℤ) : ℤ × Bool :=
  targetAtGo elapsed stages 0 0

/-- Cumulative duration of a list of stages. -/
def stagesDur (stages : List Stage) : ℤ :=
  (stages.map (·.duration)).sum

/-- End time of stage `i` (0-based): the sum of the durations of stages
`0..i`. -/
def stageEndAt (stages : List Stage) (i : ℕ) : ℤ :=
  stagesDur (stages.take (i + 1))

/-- Start time of stage `i`: the sum of the durations of the stages before
it. -/
def stageStartAt (stages : List Stage) (i : ℕ) : ℤ :=
  stagesDur (stages.take i)

/-- Declared target of the stage preceding stage `i`, with `base` standing in
for "before the start of this walk" (the scheduler starts the walk at 0). -/
def prevTargetFrom (base : ℤ) (stages : List Stage) (i : ℕ) : ℤ :=
  ((stages.take i).map (·.target)).getLastD base

/-- Declared target of the stage before stage `i` (0 for the first stage). -/
def prevTargetAt (stages : List Stage) (i : ℕ) : ℤ :=
  prevTargetFrom 0 stages i

example : targetAt [⟨10, 100, ""⟩] 5 = (50, false) := by
  norm_num [targetAt, targetAtGo, stageValue, clamp01, roundHalfAway] <;> decide
example : targetAt [⟨10, 100, ""⟩] 10 = (100, false) := by
  norm_num [targetAt, targetAtGo, stageValue, clamp01, roundHalfAway] <;> decide
example : targetAt [⟨10, 100, ""⟩] 11 = (0, true) := by
  norm_num [targetAt, targetAtGo, stageValue, clamp01, roundHalfAway]
example : targetAt [⟨10, 5, "step"⟩] 3 = (5, true) := by
  decide
example : targetAt [⟨10, 50, ""⟩, ⟨20, 50, ""⟩, ⟨10, 0, ""⟩] 35 = (25, false) := by
  norm_num [targetAt, targetAtGo, stageValue, clamp01, roundHalfAway] <;> decide

/-! ### Structural lemmas about the stage walk -/

lemma stagesDur_cons (s : Stage) (l : List Stage) :
    stagesDur (s :: l) = s.duration + stagesDur l := by
  simp [stagesDur]

lemma stagesDur_nil : stagesDur [] = 0 := rfl

lemma prevTargetFrom_zero (base : ℤ) (stages : List Stage) :
    prevTargetFrom base stages 0 = base := by
  simp [prevTargetFrom]

lemma getLastD_cons_eq (a d : ℤ) (l : List ℤ) :
    (a :: l).getLastD d = l.getLastD a := by
  cases hl : l.getLast? with
  | none =>
    have : l = [] := List.getLast?_eq_none_iff.mp hl
    subst this; rfl
  | some x =>
    cases l with
    | nil => simp at hl
    | cons b t =>
      simp only [List.getLastD_eq_getLast?, List.getLast?_cons_cons, hl, Option.getD_some]

lemma prevTargetFrom_succ_cons (base : ℤ) (s : Stage) (rest : List Stage) (i : ℕ) :
    prevTargetFrom base (s :: rest) (i + 1) = prevTargetFrom s.target rest i := by
  simp only [prevTargetFrom, List.take_succ_cons, List.map_cons, List.map_take]
  exact getLastD_cons_eq s.target base _

/-- The walk of `targetAtGo`, related to index-based positions: if stage `i`
is the first stage whose end is at or after `elapsed`, the walk returns that
stage's `stageValue` at the cumulative start and previous-target for `i`. -/
lemma targetAtGo_within (elapsed : ℤ) :
    ∀ (stages : List Stage) (start prev : ℤ) (i : ℕ) (hi : i < stages.length),
      (∀ j, j < i → start + stagesDur (stages.take (j + 1)) < elapsed) →
      elapsed ≤ start + stagesDur (stages.take (i + 1)) →
      targetAtGo elapsed stages start prev =
        stageValue (stages.get ⟨i, hi⟩) (start + stagesDur (stages.take i))
          (prevTargetFrom prev stages i) elapsed (decide (i + 1 = stages.length)) := by
  intro stages
  induction stages with
  | nil => intro start prev i hi; exact absurd hi (by simp)
  | cons s rest ih =>
    intro start prev i hi hb hin
    cases i with
    | zero =>
      have hin' : elapsed ≤ start + s.duration := by
        simpa [List.take_succ_cons, stagesDur_cons, stagesDur_nil] using hin
      simp only [targetAtGo, if_pos hin']
      have hlast : rest.isEmpty = decide (0 + 1 = (s :: rest).length) := by
        cases rest <;> simp
      simp [hlast, prevTargetFrom_zero, stagesDur_nil]
    | succ i' =>
      have h0 : start + s.duration < elapsed := by
        have := hb 0 (Nat.succ_pos i')
        simpa [List.take_succ_cons, stagesDur_cons, stagesDur_nil] using this
      have hnot : ¬ elapsed ≤ start + s.duration := not_le.mpr h0
      simp only [targetAtGo, if_neg hnot]
      have hi' : i' < rest.length := Nat.lt_of_succ_lt_succ hi
      have hb' : ∀ j, j < i' → (start + s.duration) + stagesDur (rest.take (j + 1)) < elapsed := by
        intro j hj
        have := hb (j + 1) (Nat.succ_lt_succ hj)
        simpa [List.take_succ_cons, stagesDur_cons, add_assoc] using this
      have hin' : elapsed ≤ (start + s.duration) + stagesDur (rest.take (i' + 1)) := by
        simpa [List.take_succ_cons, stagesDur_cons, add_assoc] using hin
      rw [ih (start + s.duration) s.target i' hi' hb' hin']
      simp [List.take_succ_cons, stagesDur_cons, prevTargetFrom_succ_cons, add_assoc]

/-- The walk of `targetAtGo` past every stage returns `(0, true)`. -/
lemma targetAtGo_past (elapsed : ℤ) :
    ∀ (stages : List Stage) (start prev : ℤ),
      (∀ j, j < stages.length → start + stagesDur (stages.take (j + 1)) < elapsed) →
      targetAtGo elapsed stages start prev = (0, true) := by
  intro stages
  induction stages with
  | nil => intro start prev _; rfl
  | cons s rest ih =>
    intro start prev hb
    have h0 : start + s.duration < elapsed := by
      have := hb 0 (by simp)
      simpa [List.take_succ_cons, stagesDur_cons, stagesDur_nil] using this
    simp only [targetAtGo, if_neg (not_le.mpr h0)]
    refine ih (start + s.duration) s.target ?_
    intro j hj
    have := hb (j + 1) (by simpa using Nat.succ_lt_succ hj)
    simpa [List.take_succ_cons, stagesDur_cons, add_assoc] using this

/-- Index-based version of `targetAtGo_within` for the full walk. -/
lemma targetAt_within (stages : List Stage) (elapsed : ℤ) (i : ℕ) (hi : i < stages.length)
    (hb : ∀ j, j < i → stageEndAt stages j < elapsed)
    (hin : elapsed ≤ stageEndAt stages i) :
    targetAt stages elapsed =
      stageValue (stages.get ⟨i, hi⟩) (stageStartAt stages i) (prevTargetAt stages i)
        elapsed (decide (i + 1 = stages.length)) := by
  have := targetAtGo_within elapsed stages 0 0 i hi
    (by intro j hj; simpa [stageEndAt] using hb j hj)
    (by simpa [stageEndAt] using hin)
  simpa [targetAt, stageStartAt, prevTargetAt] using this

/-- Index-based version of `targetAtGo_past` for the full walk. -/
lemma targetAt_past (stages : List Stage) (elapsed : ℤ)
    (hb : ∀ j, j < stages.length → stageEndAt stages j < elapsed) :
    targetAt stages elapsed = (0, true) :=
  targetAtGo_past elapsed stages 0 0 (by intro j hj; simpa [stageEndAt] using hb j hj)

/-! ### Arithmetic facts about rounding and clamping -/

lemma roundHalfAway_le (n : ℤ) (q : ℚ) (h : q ≤ (n : ℚ)) : roundHalfAway q ≤ n := by
  unfold roundHalfAway
  split
  · have : q + 1/2 < ((n + 1 : ℤ) : ℚ) := by push_cast; linarith
    have := Int.floor_lt.mpr this
    omega
  · exact Int.ceil_le.mpr (by linarith)

lemma le_roundHalfAway (n : ℤ) (q : ℚ) (h : (n : ℚ) ≤ q) : n ≤ roundHalfAway q := by
  unfold roundHalfAway
  split
  · exact Int.le_floor.mpr (by linarith)
  · have : ((n - 1 : ℤ) : ℚ) < q - 1/2 := by push_cast; linarith
    have := Int.lt_ceil.mpr this
    omega

lemma roundHalfAway_intCast (n : ℤ) : roundHalfAway ((n : ℤ) : ℚ) = n :=
  le_antisymm (roundHalfAway_le n _ le_rfl) (le_roundHalfAway n _ le_rfl)

lemma clamp01_nonneg (q : ℚ) : 0 ≤ clamp01 q := by
  unfold clamp01; split_ifs <;> linarith

lemma clamp01_le_one (q : ℚ) : clamp01 q ≤ 1 := by
  unfold clamp01; split_ifs <;> linarith

lemma clamp01_of_mem (q : ℚ) (h0 : 0 ≤ q) (h1 : q ≤ 1) : clamp01 q = q := by
  unfold clamp01; split_ifs <;> linarith

/-! ### Stage boundary facts -/

lemma stagesDur_append (l₁ l₂ : List Stage) :
    stagesDur (l₁ ++ l₂) = stagesDur l₁ + stagesDur l₂ := by
  simp [stagesDur]

lemma take_succ_of_lt (stages : List Stage) (i : ℕ) (hi : i < stages.length) :
    stages.take (i + 1) = stages.take i ++ [stages.get ⟨i, hi⟩] := by
  rw [List.take_succ]
  simp [List.getElem?_eq_getElem hi]

lemma stageEndAt_eq_start_add (stages : List Stage) (i : ℕ) (hi : i < stages.length) :
    stageEndAt stages i = stageStartAt stages i + (stages.get ⟨i, hi⟩).duration := by
  rw [stageEndAt, stageStartAt, take_succ_of_lt stages i hi, stagesDur_append]
  simp [stagesDur]

lemma stageStartAt_succ (stages : List Stage) (i : ℕ) :
    stageStartAt stages (i + 1) = stageEndAt stages i := rfl

lemma prevTargetAt_succ (stages : List Stage) (i : ℕ) (hi : i < stages.length) :
    prevTargetAt stages (i + 1) = (stages.get ⟨i, hi⟩).target := by
  rw [prevTargetAt, prevTargetFrom, take_succ_of_lt stages i hi, List.map_append]
  simp [List.getLastD_eq_getLast?, List.getLast?_concat]

lemma prevTargetAt_zero (stages : List Stage) : prevTargetAt stages 0 = 0 := by
  simp [prevTargetAt, prevTargetFrom]

lemma stagesDur_take_mono (stages : List Stage)
    (hnn : ∀ s ∈ stages, 0 ≤ s.duration) {k m : ℕ} (h : k ≤ m) :
    stagesDur (stages.take k) ≤ stagesDur (stages.take m) := by
  obtain ⟨d, rfl⟩ := Nat.exists_eq_add_of_le h
  rw [List.take_add, stagesDur_append]
  have : 0 ≤ stagesDur ((stages.drop k).take d) := by
    rw [stagesDur]
    apply List.sum_nonneg
    intro x hx
    obtain ⟨s, hs, rfl⟩ := List.mem_map.mp hx
    exact hnn s (List.mem_of_mem_drop (List.mem_of_mem_take hs))
  linarith

lemma stageEndAt_strict_mono (stages : List Stage)
    (hpos : ∀ s ∈ stages, 0 < s.duration) :
    ∀ i, i < stages.length → ∀ j, j < i → stageEndAt stages j < stageEndAt stages i := by
  intro i
  induction i with
  | zero => intro _ j hj; omega
  | succ i' ih =>
    intro hi j hj
    have hstep : stageEndAt stages i' < stageEndAt stages (i' + 1) := by
      rw [stageEndAt_eq_start_add stages (i' + 1) hi, stageStartAt_succ]
      have : 0 < (stages.get ⟨i' + 1, hi⟩).duration :=
        hpos _ (stages.get_mem _ _)
      linarith
    rcases Nat.lt_succ_iff_lt_or_eq.mp hj with hlt | rfl
    · exact lt_trans (ih (Nat.lt_of_succ_lt hi) j hlt) hstep
    · exact hstep

lemma stageEndAt_le_stageStartAt (stages : List Stage)
    (hnn : ∀ s ∈ stages, 0 ≤ s.duration) {j i : ℕ} (h : j < i) :
    stageEndAt stages j ≤ stageStartAt stages i :=
  stagesDur_take_mono stages hnn (by omega)

/-! ### Values of `stageValue` at interesting points -/

lemma stageValue_fst_step (st : Stage) (start prev e : ℤ) (last : Bool)
    (h : st.duration = 0 ∨ st.ramp = "step") :
    stageValue st start prev e last = (st.target, last) := by
  rw [stageValue, if_pos h]

lemma stageValue_fst_at_start (st : Stage) (start prev : ℤ) (last : Bool)
    (hlin : ¬(st.duration = 0 ∨ st.ramp = "step")) :
    (stageValue st start prev start last).1 = prev := by
  rw [stageValue, if_neg hlin]
  have : ((start - start : ℤ) : ℚ) / ((st.duration : ℤ) : ℚ) = 0 := by
    simp
  simp only [this, clamp01_of_mem 0 le_rfl zero_le_one]
  have : ((prev : ℤ) : ℚ) + ((st.target - prev : ℤ) : ℚ) * 0 = ((prev : ℤ) : ℚ) := by ring
  rw [this, roundHalfAway_intCast]

lemma stageValue_fst_at_end (st : Stage) (start prev : ℤ) (last : Bool)
    (hd : 0 < st.duration) :
    (stageValue st start prev (start + st.duration) last).1 = st.target := by
  rw [stageValue]
  split
  · rfl
  · have hne : ((st.duration : ℤ) : ℚ) ≠ 0 := by
      exact_mod_cast hd.ne'
    have : ((start + st.duration - start : ℤ) : ℚ) / ((st.duration : ℤ) : ℚ) = 1 := by
      push_cast
      rw [add_sub_cancel_left, div_self hne]
    simp only [this, clamp01_of_mem 1 zero_le_one le_rfl]
    have : ((prev : ℤ) : ℚ) + ((st.target - prev : ℤ) : ℚ) * 1 = ((st.target : ℤ) : ℚ) := by
      push_cast; ring
    rw [this, roundHalfAway_intCast]

lemma stageValue_fst_between (st : Stage) (start prev e : ℤ) (last : Bool)
    (hlin : ¬(st.duration = 0 ∨ st.ramp = "step")) :
    min prev st.target ≤ (stageValue st start prev e last).1 ∧
      (stageValue st start prev e last).1 ≤ max prev st.target := by
  rw [stageValue, if_neg hlin]
  set pct := clamp01 (((e - start : ℤ) : ℚ) / ((st.duration : ℤ) : ℚ)) with hpct
  have h0 : 0 ≤ pct := clamp01_nonneg _
  have h1 : pct ≤ 1 := clamp01_le_one _
  constructor
  · apply le_roundHalfAway
    rcases le_total prev st.target with hle | hle
    · rw [min_eq_left hle]
      have : (0 : ℚ) ≤ ((st.target - prev : ℤ) : ℚ) * pct := by
        apply mul_nonneg _ h0
        push_cast
        have : (prev : ℚ) ≤ (st.target : ℚ) := by exact_mod_cast hle
        linarith
      linarith
    · rw [min_eq_right hle]
      have hc : ((st.target : ℤ) : ℚ) ≤ (prev : ℚ) := by exact_mod_cast hle
      push_cast
      nlinarith
  · apply roundHalfAway_le
    rcases le_total prev st.target with hle | hle
    · rw [max_eq_right hle]
      have hc : ((prev : ℤ) : ℚ) ≤ (st.target : ℚ) := by exact_mod_cast hle
      push_cast
      nlinarith
    · rw [max_eq_left hle]
      have hc : ((st.target : ℤ) : ℚ) ≤ (prev : ℚ) := by exact_mod_cast hle
      push_cast
      nlinarith

/-- Helper: the value of `targetAt` at the end time of stage `i`, for positive
stage durations, is stage `i`'s declared target. -/
lemma targetAt_at_stageEnd (stages : List Stage)
    (hpos : ∀ s ∈ stages, 0 < s.duration) (i : ℕ) (hi : i < stages.length) :
    (targetAt stages (stageEndAt stages i)).1 = (stages.get ⟨i, hi⟩).target := by
  rw [targetAt_within stages (stageEndAt stages i) i hi
    (fun j hj => stageEndAt_strict_mono stages hpos i hi j hj) le_rfl]
  rw [stageEndAt_eq_start_add stages i hi]
  exact stageValue_fst_at_end _ _ _ _ (hpos _ (stages.get_mem _ _))

/-! ### Claim theorems about the scheduler -/

/-- **C2.** `targetAt` walks the stages in order tracking the cumulative stage
start and the previous stage's declared target (0 before the first stage);
within a stage (the first stage whose end is at or after `elapsed`) it returns
`stage.target` when `ramp = "step"` or the duration is 0, and otherwise
`round(prev + (target − prev) · pct)` with `pct = (elapsed − stage_start) /
stage.duration` clamped to `[0, 1]` and rounding half away from zero; past all
stages it returns 0. -/
theorem targetAt_value_characterization (stages : List Stage) (elapsed : ℤ) :
    (∀ i, ∀ hi : i < stages.length,
      (∀ j, j < i → stageEndAt stages j < elapsed) →
      elapsed ≤ stageEndAt stages i →
      (targetAt stages elapsed).1 =
        if (stages.get ⟨i, hi⟩).duration = 0 ∨ (stages.get ⟨i, hi⟩).ramp = "step" then
          (stages.get ⟨i, hi⟩).target
        else
          roundHalfAway ((prevTargetAt stages i : ℚ) +
            (((stages.get ⟨i, hi⟩).target - prevTargetAt stages i : ℤ) : ℚ) *
              clamp01 (((elapsed - stageStartAt stages i : ℤ) : ℚ) /
                (((stages.get ⟨i, hi⟩).duration : ℤ) : ℚ)))) ∧
    ((∀ j, j < stages.length → stageEndAt stages j < elapsed) →
      (targetAt stages elapsed).1 = 0) := by
  constructor
  · intro i hi hb hin
    rw [targetAt_within stages elapsed i hi hb hin, stageValue]
    split
    · rfl
    · rfl
  · intro hb
    rw [targetAt_past stages elapsed hb]

/-- Witness for `targetAt_value_characterization` at a 10-tick linear stage,
half-way through. -/
theorem targetAt_value_characterization_witness :
    (targetAt [⟨10, 100, ""⟩] 5).1 =
      if (10 : ℤ) = 0 ∨ "" = "step" then (100 : ℤ)
      else
        roundHalfAway ((prevTargetAt [⟨10, 100, ""⟩] 0 : ℚ) +
          (((100 : ℤ) - prevTargetAt [⟨10, 100, ""⟩] 0 : ℤ) : ℚ) *
            clamp01 ((((5 : ℤ) - stageStartAt [⟨10, 100, ""⟩] 0 : ℤ) : ℚ) / ((10 : ℤ) : ℚ))) := by
  exact (targetAt_value_characterization [⟨10, 100, ""⟩] 5).1 0 (by decide)
    (by intro j hj; omega) (by decide)

/-- **C1 counterexample.** The claim says the `done` flag of `targetAt` is
true only when the current stage is the last stage *and elapsed equals its
end*.  For a single step stage of duration 10 the flag is already true at
elapsed 3 ≠ 10. -/
theorem targetAt_done_flag_cex :
    (targetAt [⟨10, 5, "step"⟩] 3).2 = true ∧ (3 : ℤ) ≠ stageEndAt [⟨10, 5, "step"⟩] 0 := by
  decide

/-- **C1 (amended).** Characterization of the `done` flag of `targetAt`:
within a stage (the first stage whose end is at or after `elapsed`) it is true
iff that stage is the last one *and* has ramp `"step"` or zero duration (a
linear in-progress last stage never reports done); past every stage it is
true.  (`Scheduler.Run`'s real-time channel behaviour is outside this
model.) -/
theorem targetAt_done_flag (stages : List Stage) (elapsed : ℤ) :
    (∀ i, ∀ hi : i < stages.length,
      (∀ j, j < i → stageEndAt stages j < elapsed) →
      elapsed ≤ stageEndAt stages i →
      (targetAt stages elapsed).2 =
        (decide (i + 1 = stages.length) &&
          decide ((stages.get ⟨i, hi⟩).duration = 0 ∨ (stages.get ⟨i, hi⟩).ramp = "step"))) ∧
    ((∀ j, j < stages.length → stageEndAt stages j < elapsed) →
      (targetAt stages elapsed).2 = true) := by
  constructor
  · intro i hi hb hin
    rw [targetAt_within stages elapsed i hi hb hin, stageValue]
    split
    · next h =>
      have hd : decide ((stages.get ⟨i, hi⟩).duration = 0 ∨
          (stages.get ⟨i, hi⟩).ramp = "step") = true := by simpa using h
      rw [hd, Bool.and_true]
    · next h =>
      have hd : decide ((stages.get ⟨i, hi⟩).duration = 0 ∨
          (stages.get ⟨i, hi⟩).ramp = "step") = false := by simpa using h
      rw [hd, Bool.and_false]
  · intro hb
    rw [targetAt_past stages elapsed hb]

/-- Witness for `targetAt_done_flag`: inside the single step stage the flag is
`true && true`, and past it the flag is true. -/
theorem targetAt_done_flag_witness :
    (targetAt [⟨10, 5, "step"⟩] 3).2 =
      (decide (0 + 1 = [(⟨10, 5, "step"⟩ : Stage)].length) &&
        decide ((10 : ℤ) = 0 ∨ "step" = "step")) := by
  have h := (targetAt_done_flag [⟨10, 5, "step"⟩] 3).1 0 (by decide)
    (by intro j hj; omega) (by decide)
  simpa using h

/-- **C9.** For positive stage durations: `targetAt 0 = 0` when the first
stage is linear; at each stage's end time the value equals that stage's
target; and anywhere in a linear stage's interval the value lies between the
previous and the current stage targets, inclusive. -/
theorem targetAt_monotonicity (stages : List Stage)
    (hpos : ∀ s ∈ stages, 0 < s.duration) :
    (∀ s0 rest, stages = s0 :: rest → s0.ramp ≠ "step" → (targetAt stages 0).1 = 0) ∧
    (∀ i, ∀ hi : i < stages.length,
      (targetAt stages (stageEndAt stages i)).1 = (stages.get ⟨i, hi⟩).target) ∧
    (∀ i, ∀ hi : i < stages.length, ∀ elapsed : ℤ,
      (stages.get ⟨i, hi⟩).ramp ≠ "step" →
      stageStartAt stages i ≤ elapsed → elapsed ≤ stageEndAt stages i →
      min (prevTargetAt stages i) (stages.get ⟨i, hi⟩).target ≤ (targetAt stages elapsed).1 ∧
        (targetAt stages elapsed).1 ≤ max (prevTargetAt stages i) (stages.get ⟨i, hi⟩).target) := by
  have hnn : ∀ s ∈ stages, 0 ≤ s.duration := fun s hs => le_of_lt (hpos s hs)
  refine ⟨?_, ?_, ?_⟩
  · rintro s0 rest rfl hramp
    have hi : 0 < (s0 :: rest).length := by simp
    have hdur : 0 < s0.duration := hpos s0 (by simp)
    have hin : (0 : ℤ) ≤ stageEndAt (s0 :: rest) 0 := by
      have : stageEndAt (s0 :: rest) 0 = s0.duration := by
        simp [stageEndAt, stagesDur]
      omega
    have hlin : ¬(((s0 :: rest).get ⟨0, hi⟩).duration = 0 ∨
        ((s0 :: rest).get ⟨0, hi⟩).ramp = "step") := by
      push_neg
      exact ⟨hdur.ne', hramp⟩
    have hstart : stageStartAt (s0 :: rest) 0 = 0 := by
      simp [stageStartAt, stagesDur]
    rw [targetAt_within (s0 :: rest) 0 0 hi (by intro j hj; omega) hin, hstart,
      stageValue_fst_at_start _ _ _ _ hlin, prevTargetAt_zero]
  · intro i hi
    exact targetAt_at_stageEnd stages hpos i hi
  · intro i hi elapsed hramp hstart hend
    rcases eq_or_lt_of_le hstart with heq | hlt
    · -- elapsed is exactly the stage start
      cases i with
      | zero =>
        have hstart0 : stageStartAt stages 0 = 0 := by
          simp [stageStartAt, stagesDur]
        have hlin : ¬((stages.get ⟨0, hi⟩).duration = 0 ∨
            (stages.get ⟨0, hi⟩).ramp = "step") := by
          push_neg
          exact ⟨(hpos _ (stages.get_mem _ _)).ne', hramp⟩
        rw [targetAt_within stages elapsed 0 hi (by intro j hj; omega) hend, ← heq,
          stageValue_fst_at_start _ _ _ _ hlin, prevTargetAt_zero]
        exact ⟨min_le_left _ _, le_max_left _ _⟩
      | succ i' =>
        -- elapsed = end of stage i'; the walk stops in stage i' and yields its target
        have hi' : i' < stages.length := Nat.lt_of_succ_lt hi
        have hEnd : stageEndAt stages i' = elapsed := by
          rw [← stageStartAt_succ stages i']; exact heq
        have hval : (targetAt stages elapsed).1 = (stages.get ⟨i', hi'⟩).target := by
          rw [← hEnd]; exact targetAt_at_stageEnd stages hpos i' hi'
        rw [hval, prevTargetAt_succ stages i' hi']
        exact ⟨min_le_left _ _, le_max_left _ _⟩
    · -- strictly inside the stage: the walk reaches stage i
      have hb : ∀ j, j < i → stageEndAt stages j < elapsed := by
        intro j hj
        exact lt_of_le_of_lt (stageEndAt_le_stageStartAt stages hnn hj) hlt
      rw [targetAt_within stages elapsed i hi hb hend]
      have hlin : ¬((stages.get ⟨i, hi⟩).duration = 0 ∨
          (stages.get ⟨i, hi⟩).ramp = "step") := by
        push_neg
        exact ⟨(hpos _ (stages.get_mem _ _)).ne', hramp⟩
      exact stageValue_fst_between _ _ _ _ _ hlin

/-- Witness for `targetAt_monotonicity` on a two-stage ramp. -/
theorem targetAt_monotonicity_witness :
    (targetAt [⟨10, 100, ""⟩, ⟨10, 40, ""⟩] 0).1 = 0 ∧
      (targetAt [⟨10, 100, ""⟩, ⟨10, 40, ""⟩]
        (stageEndAt [⟨10, 100, ""⟩, ⟨10, 40, ""⟩] 1)).1 = 40 ∧
      min (prevTargetAt [⟨10, 100, ""⟩, ⟨10, 40, ""⟩] 1) 40 ≤
          (targetAt [⟨10, 100, ""⟩, ⟨10, 40, ""⟩] 15).1 ∧
        (targetAt [⟨10, 100, ""⟩, ⟨10, 40, ""⟩] 15).1 ≤
          max (prevTargetAt [⟨10, 100, ""⟩, ⟨10, 40, ""⟩] 1) 40 := by
  have hpos : ∀ s ∈ [(⟨10, 100, ""⟩ : Stage), ⟨10, 40, ""⟩], 0 < s.duration := by decide
  have h := targetAt_monotonicity [⟨10, 100, ""⟩, ⟨10, 40, ""⟩] hpos
  refine ⟨h.1 ⟨10, 100, ""⟩ [⟨10, 40, ""⟩] rfl (by decide), ?_, ?_⟩
  · have := h.2.1 1 (by decide)
    simpa using this
  · have := h.2.2 1 (by decide) 15 (by decide) (by decide) (by decide)
    simpa using this

/-! ## Metrics collector (internal/metrics/collector.go)

The Go `Collector` guards its state with a mutex; `Record` and `Snapshot` are
serialized, so the collector is modelled as the pure state threaded through
`Record` calls.  The per-endpoint `map[string]*endpointData` is modelled as an
association list in first-insertion order; every quantity a claim mentions
(sums, per-endpoint stats) is independent of Go's randomized map iteration
order. -/

/-- `metrics.Result`: the outcome of a single HTTP request.  Durations and
timestamps are nanoseconds, `error` is `none` for Go's nil error. -/
structure Result where
  endpointName : String
  statusCode : ℤ
  duration : ℤ
  bytesReceived : ℤ
  error : Option String
  timestamp : ℤ
  success : Bool
  deriving Repr, DecidableEq

/-- `metrics.endpointData`: per-endpoint mutable accumulator. -/
structure EndpointData where
  durations : List ℤ
  successes : ℤ
  errors : ℤ
  bytes : ℤ
  deriving Repr, DecidableEq

/-- Zero value of `endpointData` (fresh map entry). -/
def EndpointData.empty : EndpointData := ⟨[], 0, 0, 0⟩

/-- The body of `Collector.Record` once the endpoint entry is at hand. -/
def recordInto (d : EndpointData) (r : Result) : EndpointData :=
  { durations := d.durations ++ [r.duration]
    bytes := d.bytes + r.bytesReceived
    successes := d.successes + (if r.success then 1 else 0)
    errors := d.errors + (if r.success then 0 else 1) }

/-- `Collector.Record`: find (or create) the endpoint's accumulator and add
the result to it. -/
def record : List (String × EndpointData) → Result → List (String × EndpointData)
  | [], r => [(r.endpointName, recordInto EndpointData.empty r)]
  | (n, d) :: rest, r =>
    if n = r.endpointName then (n, recordInto d r) :: rest
    else (n, d) :: record rest r

/-- The collector state after a sequence of `Record` calls, starting empty. -/
def recordAll (rs : List Result) : List (String × EndpointData) :=
  rs.foldl record []

/-- Insert into a sorted list (helper for `sortInts`). -/
def insertSorted (x : ℤ) : List ℤ → List ℤ
  | [] => [x]
  | y :: ys => if x ≤ y then x :: y :: ys else y :: insertSorted x ys

/-- `sort.Slice(sorted, ...)` with a `<` comparator: modelled by insertion
sort (any correct sort produces the same ascending list). -/
def sortInts (l : List ℤ) : List ℤ := l.foldr insertSorted []

/-- Go's `int(x)` conversion from `float64`: truncation toward zero. -/
def ratTrunc (q : ℚ) : ℤ := if 0 ≤ q then ⌊q⌋ else ⌈q⌉

/-- `metrics.percentile`: `sorted[int(float64(len(sorted)-1) * p / 100.0)]`.
The out-of-range index accesses a Go panic would raise are totalized with
`Int.toNat`/`getD`; the safety theorem shows they are unreachable for
`p ∈ [0, 100]`. -/
def percentile (sorted : List ℤ) (p : ℚ) : ℤ :=
  if sorted.isEmpty then 0
  else sorted.getD (ratTrunc (((sorted.length : ℚ) - 1) * p / 100)).toNat 0

/-- `metrics.average`: integer sum divided by length, Go division truncates
toward zero (`Int.div`). -/
def average (durations : List ℤ) : ℤ :=
  if durations.isEmpty then 0
  else Int.div durations.sum (durations.length : ℤ)

/-- `metrics.EndpointStats`. -/
structure EndpointStats where
  name : String
  totalRequests : ℤ
  successCount : ℤ
  errorCount : ℤ
  totalBytes : ℤ
  p50 : ℤ
  p90 : ℤ
  p95 : ℤ
  p99 : ℤ
  minLat : ℤ
  maxLat : ℤ
  avg : ℤ
  deriving Repr, DecidableEq

/-- `metrics.Stats`: a point-in-time snapshot. -/
structure Stats where
  totalRequests : ℤ
  successCount : ℤ
  errorCount : ℤ
  rps : ℚ
  p50 : ℤ
  p90 : ℤ
  p95 : ℤ
  p99 : ℤ
  minLat : ℤ
  maxLat : ℤ
  avg : ℤ
  perEndpoint : List (String × EndpointStats)
  activeVUs : ℤ
  elapsed : ℤ
  deriving Repr, DecidableEq

/-- One iteration of `Snapshot`'s per-endpoint loop: build the
`EndpointStats` of one endpoint (latency fields stay zero when no duration was
recorded). -/
def buildEndpointStats (name : String) (d : EndpointData) : EndpointStats :=
  let total := d.successes + d.errors
  if d.durations.isEmpty then
    { name := name, totalRequests := total, successCount := d.successes,
      errorCount := d.errors, totalBytes := d.bytes,
      p50 := 0, p90 := 0, p95 := 0, p99 := 0, minLat := 0, maxLat := 0, avg := 0 }
  else
    let sorted := sortInts d.durations
    { name := name, totalRequests := total, successCount := d.successes,
      errorCount := d.errors, totalBytes := d.bytes,
      p50 := percentile sorted 50, p90 := percentile sorted 90,
      p95 := percentile sorted 95, p99 := percentile sorted 99,
      minLat := sorted.headD 0, maxLat := sorted.getLastD 0,
      avg := average sorted }

/-- `allDurations` accumulated by `Snapshot`: concatenation of every
endpoint's durations (Go appends only non-empty slices; appending the empty
ones too yields the same list). -/
def allDurations (endpoints : List (String × EndpointData)) : List ℤ :=
  (endpoints.map (fun nd => nd.2.durations)).join

/-- `Collector.Snapshot`, with the wall-clock reading `time.Since(startTime)`
passed in as `elapsedNs`.  The `stats.X += ...` accumulations of the Go loop
are the corresponding sums over the endpoint list. -/
def snapshot (endpoints : List (String × EndpointData)) (activeVUs elapsedNs : ℤ) : Stats :=
  let sortedAll := sortInts (allDurations endpoints)
  let totalRequests := (endpoints.map (fun nd => nd.2.successes + nd.2.errors)).sum
  { totalRequests := totalRequests
    successCount := (endpoints.map (fun nd => nd.2.successes)).sum
    errorCount := (endpoints.map (fun nd => nd.2.errors)).sum
    rps := if 0 < elapsedNs then (totalRequests : ℚ) / ((elapsedNs : ℚ) / 1000000000) else 0
    p50 := if (allDurations endpoints).isEmpty then 0 else percentile sortedAll 50
    p90 := if (allDurations endpoints).isEmpty then 0 else percentile sortedAll 90
    p95 := if (allDurations endpoints).isEmpty then 0 else percentile sortedAll 95
    p99 := if (allDurations endpoints).isEmpty then 0 else percentile sortedAll 99
    minLat := if (allDurations endpoints).isEmpty then 0 else sortedAll.headD 0
    maxLat := if (allDurations endpoints).isEmpty then 0 else sortedAll.getLastD 0
    avg := if (allDurations endpoints).isEmpty then 0 else average sortedAll
    perEndpoint := endpoints.map (fun nd => (nd.1, buildEndpointStats nd.1 nd.2))
    activeVUs := activeVUs
    elapsed := elapsedNs }

/-! ### Accounting lemmas for `record` -/

lemma buildEndpointStats_totalRequests (n : String) (d : EndpointData) :
    (buildEndpointStats n d).totalRequests = d.successes + d.errors := by
  rw [buildEndpointStats]; split <;> rfl

lemma buildEndpointStats_successCount (n : String) (d : EndpointData) :
    (buildEndpointStats n d).successCount = d.successes := by
  rw [buildEndpointStats]; split <;> rfl

lemma buildEndpointStats_errorCount (n : String) (d : EndpointData) :
    (buildEndpointStats n d).errorCount = d.errors := by
  rw [buildEndpointStats]; split <;> rfl

lemma sum_map_build (st : List (String × EndpointData)) (g : EndpointStats → ℤ)
    (f : EndpointData → ℤ) (h : ∀ n d, g (buildEndpointStats n d) = f d) :
    ((st.map (fun nd => (nd.1, buildEndpointStats nd.1 nd.2))).map (fun e => g e.2)).sum =
      (st.map (fun nd => f nd.2)).sum := by
  induction st with
  | nil => rfl
  | cons nd rest ih =>
    simp only [List.map_cons, List.sum_cons, h]
    rw [ih]

/-- A quantity that `recordInto` bumps by `δ r` is summed correctly by one
`record` call. -/
lemma sum_map_record (f : EndpointData → ℤ) (δ : Result → ℤ)
    (hf : ∀ d r, f (recordInto d r) = f d + δ r)
    (hf0 : f EndpointData.empty = 0) :
    ∀ (st : List (String × EndpointData)) (r : Result),
      ((record st r).map (fun nd => f nd.2)).sum =
        (st.map (fun nd => f nd.2)).sum + δ r := by
  intro st r
  induction st with
  | nil => simp [record, hf, hf0]
  | cons nd rest ih =>
    obtain ⟨n, d⟩ := nd
    by_cases h : n = r.endpointName
    · simp only [record, if_pos h, List.map_cons, List.sum_cons, hf]
      ring
    · simp only [record, if_neg h, List.map_cons, List.sum_cons, ih]
      ring

/-- Summed version of `sum_map_record` over a whole run of `Record` calls. -/
lemma sum_map_recordAll (f : EndpointData → ℤ) (δ : Result → ℤ)
    (hf : ∀ d r, f (recordInto d r) = f d + δ r)
    (hf0 : f EndpointData.empty = 0) :
    ∀ (rs : List Result) (st : List (String × EndpointData)),
      ((rs.foldl record st).map (fun nd => f nd.2)).sum =
        (st.map (fun nd => f nd.2)).sum + (rs.map δ).sum := by
  intro rs
  induction rs with
  | nil => intro st; simp
  | cons r rest ih =>
    intro st
    simp only [List.foldl_cons, List.map_cons, List.sum_cons, ih,
      sum_map_record f δ hf hf0 st r]
    ring

lemma sum_if_success_eq_count (rs : List Result) :
    (rs.map (fun r => if r.success then (1 : ℤ) else 0)).sum =
      ((rs.filter (fun r => r.success)).length : ℤ) := by
  induction rs with
  | nil => rfl
  | cons r rest ih =>
    by_cases h : r.success <;> simp [List.filter_cons, h, ih] <;> ring

lemma sum_if_failure_eq_count (rs : List Result) :
    (rs.map (fun r => if r.success then (0 : ℤ) else 1)).sum =
      ((rs.filter (fun r => !r.success)).length : ℤ) := by
  induction rs with
  | nil => rfl
  | cons r rest ih =>
    by_cases h : r.success <;> simp [List.filter_cons, h, ih] <;> ring

/-- **C4.** In every snapshot generated by a sequence of `Record` calls, each
endpoint's `totalRequests` equals its `successCount + errorCount`, and the
global totals equal the sums of the per-endpoint values (and hence count the
recorded results exactly). -/
theorem snapshot_totals_invariant (rs : List Result) (activeVUs elapsedNs : ℤ) :
    (∀ e ∈ (snapshot (recordAll rs) activeVUs elapsedNs).perEndpoint,
        e.2.totalRequests = e.2.successCount + e.2.errorCount) ∧
    (snapshot (recordAll rs) activeVUs elapsedNs).totalRequests =
      ((snapshot (recordAll rs) activeVUs elapsedNs).perEndpoint.map
        (fun e => e.2.totalRequests)).sum ∧
    (snapshot (recordAll rs) activeVUs elapsedNs).successCount =
      ((snapshot (recordAll rs) activeVUs elapsedNs).perEndpoint.map
        (fun e => e.2.successCount)).sum ∧
    (snapshot (recordAll rs) activeVUs elapsedNs).errorCount =
      ((snapshot (recordAll rs) activeVUs elapsedNs).perEndpoint.map
        (fun e => e.2.errorCount)).sum ∧
    (snapshot (recordAll rs) activeVUs elapsedNs).totalRequests = (rs.length : ℤ) ∧
    (snapshot (recordAll rs) activeVUs elapsedNs).successCount =
      ((rs.filter (fun r => r.success)).length : ℤ) ∧
    (snapshot (recordAll rs) activeVUs elapsedNs).errorCount =
      ((rs.filter (fun r => !r.success)).length : ℤ) := by
  refine ⟨?_, ?_, ?_, ?_, ?_, ?_, ?_⟩
  · intro e he
    simp only [snapshot, List.mem_map] at he
    obtain ⟨nd, _, rfl⟩ := he
    simp [buildEndpointStats_totalRequests, buildEndpointStats_successCount,
      buildEndpointStats_errorCount]
  · exact (sum_map_build (recordAll rs) (fun e => e.totalRequests)
      (fun d => d.successes + d.errors) buildEndpointStats_totalRequests).symm
  · exact (sum_map_build (recordAll rs) (fun e => e.successCount)
      (fun d => d.successes) buildEndpointStats_successCount).symm
  · exact (sum_map_build (recordAll rs) (fun e => e.errorCount)
      (fun d => d.errors) buildEndpointStats_errorCount).symm
  · have := sum_map_recordAll (fun d => d.successes + d.errors) (fun _ => 1)
      (by intro d r; simp [recordInto]; split <;> ring) (by rfl) rs []
    simpa [snapshot, recordAll] using this
  · have := sum_map_recordAll (fun d => d.successes)
      (fun r => if r.success then (1 : ℤ) else 0)
      (by intro d r; simp [recordInto]) (by rfl) rs []
    rw [sum_if_success_eq_count] at this
    simpa [snapshot, recordAll] using this
  · have := sum_map_recordAll (fun d => d.errors)
      (fun r => if r.success then (0 : ℤ) else 1)
      (by intro d r; simp [recordInto]) (by rfl) rs []
    rw [sum_if_failure_eq_count] at this
    simpa [snapshot, recordAll] using this

/-! ### Percentile claims -/

/-- One result with duration `(i+1)` ms for endpoint `"X"` (spec §8 seed
test 6). -/
def msResult (i : ℕ) : Result :=
  ⟨"X", 200, ((i : ℤ) + 1) * 1000000, 0, none, 0, true⟩

/-- 100 results with durations 1 ms .. 100 ms. -/
def hundredResults : List Result := (List.range 100).map msResult

/-- The duration multiset 1 ms .. 100 ms, in order. -/
def msDurations : List ℤ := (List.range 100).map (fun i => ((i : ℤ) + 1) * 1000000)

set_option maxRecDepth 8000 in
/-- **C3.** `percentile` on a non-empty sorted list and `p ∈ [0, 100]` returns
the element at zero-based index `⌊(L − 1) · p / 100⌋` (in particular the index
is in range), and consequently the snapshot of the 100 recorded values
1 ms .. 100 ms reports p50 = 50 ms, p90 = 90 ms and p99 = 99 ms. -/
theorem percentile_nearest_rank :
    (∀ (sorted : List ℤ) (p : ℚ), sorted ≠ [] → 0 ≤ p → p ≤ 100 →
      ∃ hidx : (⌊((sorted.length : ℚ) - 1) * p / 100⌋).toNat < sorted.length,
        percentile sorted p =
          sorted.get ⟨(⌊((sorted.length : ℚ) - 1) * p / 100⌋).toNat, hidx⟩) ∧
    (snapshot (recordAll hundredResults) 0 0).p50 = 50000000 ∧
    (snapshot (recordAll hundredResults) 0 0).p90 = 90000000 ∧
    (snapshot (recordAll hundredResults) 0 0).p99 = 99000000 := by
  constructor
  · intro sorted p hne h0 h100
    have hL : 1 ≤ (sorted.length : ℚ) := by
      have : 1 ≤ sorted.length := List.length_pos.mpr hne
      exact_mod_cast this
    set q : ℚ := ((sorted.length : ℚ) - 1) * p / 100 with hq
    have hq0 : 0 ≤ q := by
      apply div_nonneg (mul_nonneg (by linarith) h0) (by norm_num)
    have hqle : q ≤ (sorted.length : ℚ) - 1 := by
      rw [hq, div_le_iff (by norm_num : (0 : ℚ) < 100)]
      nlinarith
    have hfl : ⌊q⌋ ≤ (sorted.length : ℤ) - 1 := by
      have h1 : ⌊q⌋ ≤ ⌊(sorted.length : ℚ) - 1⌋ := Int.floor_le_floor hqle
      have h2 : ⌊(sorted.length : ℚ) - 1⌋ = (sorted.length : ℤ) - 1 := by
        rw [show ((sorted.length : ℚ) - 1) = (((sorted.length : ℤ) - 1 : ℤ) : ℚ) by push_cast; ring]
        exact Int.floor_intCast _
      omega
    have hfl0 : 0 ≤ ⌊q⌋ := Int.floor_nonneg.mpr hq0
    have hlen : 1 ≤ sorted.length := List.length_pos.mpr hne
    have hidx : (⌊q⌋).toNat < sorted.length := by omega
    refine ⟨hidx, ?_⟩
    rw [percentile, if_neg (by simpa using hne), ratTrunc, if_pos hq0]
    rw [List.getD_eq_getElem sorted 0 hidx]
    simp [List.get_eq_getElem]
  · have hrec : recordAll hundredResults = [("X", ⟨msDurations, 100, 0, 0⟩)] := by decide
    have hall : allDurations [("X", (⟨msDurations, 100, 0, 0⟩ : EndpointData))] = msDurations := by
      simp [allDurations]
    have hsort : sortInts msDurations = msDurations := by decide
    have h50 : percentile msDurations 50 = 50000000 := by
      rw [percentile, if_neg (by decide), show msDurations.length = 100 from by decide,
        ratTrunc, if_pos (by norm_num)]
      have h : ⌊((((100 : ℕ) : ℚ)) - 1) * 50 / 100⌋ = 49 := by norm_num
      rw [h]
      decide
    have h90 : percentile msDurations 90 = 90000000 := by
      rw [percentile, if_neg (by decide), show msDurations.length = 100 from by decide,
        ratTrunc, if_pos (by norm_num)]
      have h : ⌊((((100 : ℕ) : ℚ)) - 1) * 90 / 100⌋ = 89 := by norm_num
      rw [h]
      decide
    have h99 : percentile msDurations 99 = 99000000 := by
      rw [percentile, if_neg (by decide), show msDurations.length = 100 from by decide,
        ratTrunc, if_pos (by norm_num)]
      have h : ⌊((((100 : ℕ) : ℚ)) - 1) * 99 / 100⌋ = 98 := by norm_num
      rw [h]
      decide
    refine ⟨?_, ?_, ?_⟩
    · rw [hrec, show (snapshot [("X", (⟨msDurations, 100, 0, 0⟩ : EndpointData))] 0 0).p50 =
        if (allDurations [("X", (⟨msDurations, 100, 0, 0⟩ : EndpointData))]).isEmpty then 0
        else percentile
          (sortInts (allDurations [("X", (⟨msDurations, 100, 0, 0⟩ : EndpointData))])) 50
        from rfl, hall, hsort, if_neg (by decide)]
      exact h50
    · rw [hrec, show (snapshot [("X", (⟨msDurations, 100, 0, 0⟩ : EndpointData))] 0 0).p90 =
        if (allDurations [("X", (⟨msDurations, 100, 0, 0⟩ : EndpointData))]).isEmpty then 0
        else percentile
          (sortInts (allDurations [("X", (⟨msDurations, 100, 0, 0⟩ : EndpointData))])) 90
        from rfl, hall, hsort, if_neg (by decide)]
      exact h90
    · rw [hrec, show (snapshot [("X", (⟨msDurations, 100, 0, 0⟩ : EndpointData))] 0 0).p99 =
        if (allDurations [("X", (⟨msDurations, 100, 0, 0⟩ : EndpointData))]).isEmpty then 0
        else percentile
          (sortInts (allDurations [("X", (⟨msDurations, 100, 0, 0⟩ : EndpointData))])) 99
        from rfl, hall, hsort, if_neg (by decide)]
      exact h99

/-- Witness for `percentile_nearest_rank` at the 3-element list `[5, 7, 9]`
and p50. -/
theorem percentile_nearest_rank_witness :
    ∃ hidx : (⌊((([5, 7, 9] : List ℤ).length : ℚ) - 1) * 50 / 100⌋).toNat <
        ([5, 7, 9] : List ℤ).length,
      percentile [5, 7, 9] 50 =
        ([5, 7, 9] : List ℤ).get
          ⟨(⌊((([5, 7, 9] : List ℤ).length : ℚ) - 1) * 50 / 100⌋).toNat, hidx⟩ :=
  percentile_nearest_rank.1 [5, 7, 9] 50 (by decide) (by norm_num) (by norm_num)

/-! ## Engine exit contract (internal/engine/engine.go) -/

/-- The tail of `Engine.Run`: the roll-up error returned to the caller, built
from the final snapshot (`"test completed with N errors out of M requests"`
when `ErrorCount > 0`, nil otherwise). -/
def engineErr (finalStats : Stats) : Option String :=
  if 0 < finalStats.errorCount then
    some ("test completed with " ++ toString finalStats.errorCount ++ " errors out of "
      ++ toString finalStats.totalRequests ++ " requests")
  else none

/-- What `Engine.Run` hands its caller: the final snapshot (reported /
written to JSON) together with the roll-up error. -/
def engineRunOutcome (finalStats : Stats) : Stats × Option String :=
  (finalStats, engineErr finalStats)

/-- **C6.** For every run history, the error component of `Engine.Run`'s
outcome is non-nil iff the final snapshot's `errorCount` is positive. -/
theorem engineRun_error_iff (rs : List Result) (activeVUs elapsedNs : ℤ) :
    ((engineRunOutcome (snapshot (recordAll rs) activeVUs elapsedNs)).2).isSome ↔
      0 < (snapshot (recordAll rs) activeVUs elapsedNs).errorCount := by
  rw [engineRunOutcome, engineErr]
  split
  · next h => simpa using h
  · next h => simpa using h

/-! ## Request executor (internal/worker/executor.go) -/

/-- `config.ExpectConfig`: expected response status (0 = any). -/
structure Expect where
  status : ℤ
  deriving Repr, DecidableEq

/-- `config.Endpoint`. -/
structure Endpoint where
  name : String
  method : String
  url : String
  body : String
  headers : List (String × String)
  weight : ℤ
  expect : Expect
  deriving Repr, DecidableEq

instance : Inhabited Endpoint := ⟨⟨"", "", "", "", [], 0, ⟨0⟩⟩⟩

/-- What the HTTP layer did for one request: `http.NewRequestWithContext`
failed, `client.Do` returned a transport error, or a response with a status
code and a drained body arrived. -/
inductive HTTPOutcome where
  | buildErr (msg : String)
  | transportErr (msg : String)
  | response (status : ℤ) (bodyBytes : ℤ)
  deriving Repr, DecidableEq

/-- `Executor.Execute`'s construction of the `Result`, given the HTTP
outcome, the wall-clock `start` and measured `duration` (and `now` for the
early-return timestamp).  Field for field from the three return sites. -/
def execute (ep : Endpoint) (outcome : HTTPOutcome) (start dur now : ℤ) : Result :=
  match outcome with
  | .buildErr msg =>
    { endpointName := ep.name, statusCode := 0, duration := 0, bytesReceived := 0,
      error := some ("building request: " ++ msg), timestamp := now, success := false }
  | .transportErr msg =>
    { endpointName := ep.name, statusCode := 0, duration := dur, bytesReceived := 0,
      error := some msg, timestamp := start, success := false }
  | .response status bodyBytes =>
    if ep.expect.status ≠ 0 ∧ status ≠ ep.expect.status then
      { endpointName := ep.name, statusCode := status, duration := dur,
        bytesReceived := bodyBytes,
        error := some ("expected status " ++ toString ep.expect.status ++ ", got "
          ++ toString status),
        timestamp := start, success := false }
    else
      { endpointName := ep.name, statusCode := status, duration := dur,
        bytesReceived := bodyBytes, error := none, timestamp := start, success := true }

/-- **C5.** `Execute`'s success rule: a transport error yields
`success = false`, `statusCode = 0` and the transport error; a response
failing a non-zero status expectation yields `success = false` with the
status-mismatch error; otherwise `success = true` and no error. -/
theorem execute_success_rule (ep : Endpoint) (start dur now : ℤ) :
    (∀ msg, (execute ep (.transportErr msg) start dur now).success = false ∧
      (execute ep (.transportErr msg) start dur now).statusCode = 0 ∧
      (execute ep (.transportErr msg) start dur now).error = some msg) ∧
    (∀ status bodyBytes : ℤ,
      (ep.expect.status ≠ 0 → status ≠ ep.expect.status →
        (execute ep (.response status bodyBytes) start dur now).success = false ∧
        (execute ep (.response status bodyBytes) start dur now).error =
          some ("expected status " ++ toString ep.expect.status ++ ", got "
            ++ toString status)) ∧
      ((ep.expect.status = 0 ∨ status = ep.expect.status) →
        (execute ep (.response status bodyBytes) start dur now).success = true ∧
        (execute ep (.response status bodyBytes) start dur now).error = none)) := by
  refine ⟨fun msg => ⟨rfl, rfl, rfl⟩, fun status bodyBytes => ⟨?_, ?_⟩⟩
  · intro h1 h2
    rw [execute, if_pos ⟨h1, h2⟩]
    exact ⟨rfl, rfl⟩
  · intro h
    rw [execute, if_neg (by tauto)]
    exact ⟨rfl, rfl⟩

/-- Witness for `execute_success_rule`: status mismatch against expect 200,
and a match. -/
theorem execute_success_rule_witness :
    (execute ⟨"e", "GET", "u", "", [], 1, ⟨200⟩⟩ (.response 404 5) 0 7 0).success = false ∧
    (execute ⟨"e", "GET", "u", "", [], 1, ⟨200⟩⟩ (.response 200 5) 0 7 0).success = true := by
  constructor
  · exact (((execute_success_rule ⟨"e", "GET", "u", "", [], 1, ⟨200⟩⟩ 0 7 0).2 404 5).1
      (by decide) (by decide)).1
  · exact (((execute_success_rule ⟨"e", "GET", "u", "", [], 1, ⟨200⟩⟩ 0 7 0).2 200 5).2
      (Or.inr rfl)).1

/-! ### Weighted endpoint selection -/

/-- The `if w <= 0 { w = 1 }` normalization in `NewExecutor`. -/
def normWeight (w : ℤ) : ℤ := if w ≤ 0 then 1 else w

/-- The loop of `NewExecutor`: running total and cumulative weight array. -/
def cumWeightsGo (total : ℤ) : List Endpoint → List ℤ
  | [] => []
  | ep :: rest =>
    (total + normWeight ep.weight) :: cumWeightsGo (total + normWeight ep.weight) rest

/-- `Executor.cumWeights`. -/
def cumWeights (eps : List Endpoint) : List ℤ := cumWeightsGo 0 eps

/-- `Executor.totalWeight`: the final running total, i.e. the sum of the
normalized weights. -/
def totalWeight (eps : List Endpoint) : ℤ :=
  (eps.map (fun ep => normWeight ep.weight)).sum

/-- `sort.SearchInts(a, x)` (per its contract on the sorted `cumWeights`):
the smallest index `i` with `x ≤ a[i]`, or `len(a)` when there is none. -/
def searchInts (l : List ℤ) (x : ℤ) : ℕ :=
  l.findIdx (fun v => decide (x ≤ v))

/-- `Executor.SelectEndpoint` with the random draw `r = rand.Intn(total)`
passed in; Go's panicking index is totalized with `getD`. -/
def selectEndpoint (eps : List Endpoint) (r : ℤ) : Endpoint :=
  if eps.length = 1 then eps.getD 0 default
  else
    let idx := searchInts (cumWeights eps) (r + 1)
    let idx := if eps.length ≤ idx then eps.length - 1 else idx
    eps.getD idx default

lemma normWeight_pos (w : ℤ) : 0 < normWeight w := by
  rw [normWeight]; split <;> omega

lemma cumWeightsGo_length (l : List Endpoint) : ∀ t, (cumWeightsGo t l).length = l.length := by
  induction l with
  | nil => intro t; rfl
  | cons ep rest ih => intro t; simp [cumWeightsGo, ih]

lemma cumWeightsGo_gt (l : List Endpoint) : ∀ t, ∀ x ∈ cumWeightsGo t l, t < x := by
  induction l with
  | nil => intro t x hx; simp [cumWeightsGo] at hx
  | cons ep rest ih =>
    intro t x hx
    rcases List.mem_cons.mp hx with rfl | hx
    · have := normWeight_pos ep.weight; omega
    · have h1 := ih (t + normWeight ep.weight) x hx
      have := normWeight_pos ep.weight
      omega

lemma cumWeightsGo_pairwise (l : List Endpoint) : ∀ t, (cumWeightsGo t l).Pairwise (· < ·) := by
  induction l with
  | nil => intro t; exact List.Pairwise.nil
  | cons ep rest ih =>
    intro t
    rw [cumWeightsGo]
    exact List.Pairwise.cons (fun x hx => cumWeightsGo_gt rest _ x hx) (ih _)

lemma cumWeightsGo_getLastD (l : List Endpoint) :
    ∀ t, (cumWeightsGo t l).getLastD t = t + (l.map (fun ep => normWeight ep.weight)).sum := by
  induction l with
  | nil => intro t; simp [cumWeightsGo]
  | cons ep rest ih =>
    intro t
    rw [cumWeightsGo, getLastD_cons_eq, ih]
    simp
    ring

lemma getLastD_mem {l : List ℤ} (d : ℤ) (h : l ≠ []) : l.getLastD d ∈ l := by
  rw [List.getLastD_eq_getLast?, List.getLast?_eq_getLast l h, Option.getD_some]
  exact List.getLast_mem h

lemma totalWeight_pos (eps : List Endpoint) (hne : eps ≠ []) : 0 < totalWeight eps := by
  cases eps with
  | nil => exact absurd rfl hne
  | cons ep rest =>
    rw [totalWeight, List.map_cons, List.sum_cons]
    have h1 := normWeight_pos ep.weight
    have h2 : 0 ≤ (rest.map (fun ep => normWeight ep.weight)).sum := by
      apply List.sum_nonneg
      intro x hx
      obtain ⟨e, _, rfl⟩ := List.mem_map.mp hx
      exact le_of_lt (normWeight_pos e.weight)
    omega

/-- **C10.** For a non-empty endpoint list, the cumulative weight array is
strictly increasing with positive total, and `SelectEndpoint` with any draw
`r ∈ [0, total)` computes an in-range index and returns an element of the
endpoint list. -/
theorem selectEndpoint_safe (eps : List Endpoint) (hne : eps ≠ []) :
    (cumWeights eps).Pairwise (· < ·) ∧
    0 < totalWeight eps ∧
    (∀ r : ℤ, 0 ≤ r → r < totalWeight eps →
      searchInts (cumWeights eps) (r + 1) < eps.length ∧ selectEndpoint eps r ∈ eps) := by
  refine ⟨cumWeightsGo_pairwise eps 0, totalWeight_pos eps hne, ?_⟩
  intro r _ hr
  have hlen : (cumWeights eps).length = eps.length := cumWeightsGo_length eps 0
  have hcne : cumWeights eps ≠ [] := by
    intro h
    apply hne
    have h0 : (cumWeights eps).length = 0 := by rw [h]; rfl
    rw [hlen] at h0
    exact List.length_eq_zero.mp h0
  have hlast : (cumWeights eps).getLastD 0 = totalWeight eps := by
    rw [cumWeights, cumWeightsGo_getLastD eps 0, totalWeight]
    ring
  have hexists : ∃ v ∈ cumWeights eps, decide (r + 1 ≤ v) = true := by
    refine ⟨(cumWeights eps).getLastD 0, getLastD_mem 0 hcne, ?_⟩
    rw [hlast]
    simpa using hr
  have hidx : searchInts (cumWeights eps) (r + 1) < eps.length := by
    rw [searchInts, ← hlen]
    exact List.findIdx_lt_length_of_exists hexists
  refine ⟨hidx, ?_⟩
  rw [selectEndpoint]
  split
  · next h1 =>
    have h0 : 0 < eps.length := by omega
    rw [List.getD_eq_getElem eps default h0]
    exact List.getElem_mem _
  · have hclamp : ¬ eps.length ≤ searchInts (cumWeights eps) (r + 1) := by omega
    simp only [if_neg hclamp]
    rw [List.getD_eq_getElem eps default hidx]
    exact List.getElem_mem _

/-- Witness for `selectEndpoint_safe` on two endpoints with weights 9 and 1
and the draw 8. -/
theorem selectEndpoint_safe_witness :
    searchInts (cumWeights [⟨"a", "GET", "u", "", [], 9, ⟨0⟩⟩, ⟨"b", "GET", "u", "", [], 1, ⟨0⟩⟩])
        (8 + 1) < 2 ∧
      selectEndpoint [⟨"a", "GET", "u", "", [], 9, ⟨0⟩⟩, ⟨"b", "GET", "u", "", [], 1, ⟨0⟩⟩] 8 ∈
        [(⟨"a", "GET", "u", "", [], 9, ⟨0⟩⟩ : Endpoint), ⟨"b", "GET", "u", "", [], 1, ⟨0⟩⟩] := by
  exact (selectEndpoint_safe
    [⟨"a", "GET", "u", "", [], 9, ⟨0⟩⟩, ⟨"b", "GET", "u", "", [], 1, ⟨0⟩⟩]
    (by decide)).2.2 8 (by decide) (by decide)

/-! ## VU worker loop (internal/worker/worker.go) -/

/-- The nondeterministic facts one iteration of `Worker.Run` samples:
`cancelledAtCheck` is whether `ctx.Err() != nil` at the post-execute discard
check; `cancelledAtSend` whether the context is cancelled by the time the
send `select` resolves; `selectPicksDone` whether that select resolved to its
`ctx.Done()` branch. -/
structure WorkerRace where
  cancelledAtCheck : Bool
  cancelledAtSend : Bool
  selectPicksDone : Bool
  deriving Repr, DecidableEq

/-- Well-formedness of a race sample: cancellation is permanent (cancelled at
the check implies still cancelled at the send), and the select resolves to
the `ctx.Done()` branch only if the context is cancelled by then. -/
def WorkerRace.wf (e : WorkerRace) : Prop :=
  (e.cancelledAtCheck = true → e.cancelledAtSend = true) ∧
  (e.selectPicksDone = true → e.cancelledAtSend = true)

/-- One iteration of `Worker.Run` after `Execute` returned `res`: `true` iff
the result is sent on the results channel, `false` iff it is discarded
(either by the `result.Error != nil && ctx.Err() != nil` early return or by
the send select resolving to `ctx.Done()`). -/
def workerEmits (res : Result) (e : WorkerRace) : Bool :=
  if res.error.isSome && e.cancelledAtCheck then false
  else if e.selectPicksDone then false
  else true

/-- **C7 counterexample.** The claim says a result is discarded *iff* its
error is non-nil and the context is cancelled.  A successful (nil-error)
result is nonetheless discarded when the context is cancelled and the send
select resolves to the cancellation branch. -/
theorem workerEmits_discard_iff_cex :
    (⟨false, true, true⟩ : WorkerRace).wf ∧
      workerEmits ⟨"e", 200, 1, 0, none, 0, true⟩ ⟨false, true, true⟩ = false ∧
      (⟨"e", 200, 1, 0, none, 0, true⟩ : Result).error = none := by
  refine ⟨⟨?_, ?_⟩, ?_, ?_⟩ <;> decide

/-- **C7 (amended).** A result is discarded iff (its error is non-nil and the
context was cancelled at the discard check) or the send select resolved to
the cancellation branch — the latter is possible only when the context is
cancelled by send time; in particular, while the context is not cancelled
every result is sent. -/
theorem workerEmits_discard_iff (res : Result) (e : WorkerRace) (hwf : e.wf) :
    (workerEmits res e = false ↔
      (res.error.isSome = true ∧ e.cancelledAtCheck = true) ∨ e.selectPicksDone = true) ∧
    (e.cancelledAtSend = false → workerEmits res e = true) := by
  obtain ⟨h1, h2⟩ := hwf
  constructor
  · cases hb : res.error.isSome <;> cases hc : e.cancelledAtCheck <;>
      cases hd : e.selectPicksDone <;> simp [workerEmits, hb, hc, hd]
  · intro hns
    have hd : e.selectPicksDone = false := by
      cases hsp : e.selectPicksDone
      · rfl
      · rw [h2 hsp] at hns; exact absurd hns (by simp)
    have hc : e.cancelledAtCheck = false := by
      cases hcc : e.cancelledAtCheck
      · rfl
      · rw [h1 hcc] at hns; exact absurd hns (by simp)
    simp [workerEmits, hc, hd]

/-- Witness for `workerEmits_discard_iff`: an errored result under a context
cancelled at the check is discarded. -/
theorem workerEmits_discard_iff_witness :
    (workerEmits ⟨"e", 0, 1, 0, some "boom", 0, false⟩ ⟨true, true, false⟩ = false ↔
      ((⟨"e", 0, 1, 0, some "boom", 0, false⟩ : Result).error.isSome = true ∧
        (⟨true, true, false⟩ : WorkerRace).cancelledAtCheck = true) ∨
      (⟨true, true, false⟩ : WorkerRace).selectPicksDone = true) ∧
    ((⟨true, true, false⟩ : WorkerRace).cancelledAtSend = false →
      workerEmits ⟨"e", 0, 1, 0, some "boom", 0, false⟩ ⟨true, true, false⟩ = true) :=
  workerEmits_discard_iff ⟨"e", 0, 1, 0, some "boom", 0, false⟩ ⟨true, true, false⟩
    ⟨by decide, by decide⟩

/-! ## Template generator (internal/data/generator.go)

`Generator.Generate` replaces the regex matches of `\$\{([^}]+)\}` using
`ReplaceAllStringFunc`.  The random sources (`crypto/rand`, `math/rand`) and
the platform float parser `strconv.ParseFloat` are passed in as an oracle
environment `GenEnv`; no claim depends on the drawn values. -/

/-- Oracle environment for `data.Generator`: the variables map plus the
random draws and platform float parsing that `evaluate` consumes. -/
structure GenEnv where
  vars : List (String × String)
  uuid : String
  email : String
  boolZero : Bool
  int63n : ℤ → ℤ
  parseFloat : String → Option ℚ
  floatFmt : ℚ → ℚ → String
  alnum : ℕ → String
  choiceIdx : ℕ → ℕ

/-- Go map lookup `g.variables[key]`. -/
def lookupVar (vars : List (String × String)) (k : String) : Option String :=
  (vars.find? (fun kv => kv.1 == k)).map (fun kv => kv.2)

/-- `unicode.IsSpace` on the ASCII range (the whitespace `strings.TrimSpace`
strips from the tokens these claims concern). -/
def isSpaceGo (c : Char) : Bool :=
  c = ' ' ∨ c = '\t' ∨ c = '\n' ∨ c = '\x0b' ∨ c = '\x0c' ∨ c = '\r'

/-- `strings.TrimSpace` on a character list. -/
def trimChars (l : List Char) : List Char :=
  ((l.dropWhile isSpaceGo).reverse.dropWhile isSpaceGo).reverse

/-- `strings.TrimSpace`. -/
def trimGo (s : String) : String := ⟨trimChars s.data⟩

/-- Decimal digits to a natural number. -/
def digitsToNat (l : List Char) : ℕ :=
  l.foldl (fun a c => a * 10 + (c.toNat - ('0').toNat)) 0

/-- `strconv.ParseInt(s, 10, 64)` (and `strconv.Atoi` on 64-bit platforms):
optional sign, at least one decimal digit, int64 range check; `none` for
Go's non-nil error. -/
def parseInt64 (s : String) : Option ℤ :=
  let signDigits : ℤ × List Char :=
    match s.data with
    | '+' :: rest => (1, rest)
    | '-' :: rest => (-1, rest)
    | l => (1, l)
  if signDigits.2.isEmpty then none
  else if signDigits.2.all (fun c => c.isDigit) then
    let v : ℤ := signDigits.1 * (digitsToNat signDigits.2 : ℤ)
    if -(2 ^ 63) ≤ v ∧ v ≤ 2 ^ 63 - 1 then some v else none
  else none

/-- `strings.HasPrefix` (on code points; all recognized prefixes are
ASCII). -/
def hasPrefixGo (s pfx : String) : Bool := pfx.data.isPrefixOf s.data

/-- `strings.HasSuffix`. -/
def hasSuffixGo (s sfx : String) : Bool := sfx.data.isSuffixOf s.data

/-- `strings.Split(s, ",")` on a character list: never empty, one group per
comma-separated segment. -/
def splitCommaChars : List Char → List (List Char)
  | [] => [[]]
  | c :: rest =>
    if c = ',' then [] :: splitCommaChars rest
    else
      match splitCommaChars rest with
      | [] => [[c]]
      | g :: gs => (c :: g) :: gs

/-- `strings.Split(s, ",")`. -/
def splitComma (s : String) : List String := (splitCommaChars s.data).map (fun l => ⟨l⟩)

/-- `data.match`: reconstruct the token as a literal `${token}`. -/
def matchTok (token : String) : String := "$\x7b" ++ token ++ "\x7d"

/-- `data.parseArgs`: strip `prefix` and the trailing `)`, or fail. -/
def parseArgs (token pfx : String) : Option String :=
  if hasPrefixGo token pfx && hasSuffixGo token ")" then
    some ⟨(token.data.drop pfx.length).dropLast⟩
  else none

/-- Split a character list at its first comma (`strings.SplitN(s, ",", 2)`
succeeds iff a comma is present). -/
def splitFirstComma : List Char → Option (List Char × List Char)
  | [] => none
  | c :: rest =>
    if c = ',' then some ([], rest)
    else (splitFirstComma rest).map (fun p => (c :: p.1, p.2))

/-- `strings.SplitN(s, ",", 2)` viewed as "the two parts, when the separator
occurs". -/
def splitN2 (s : String) : Option (String × String) :=
  (splitFirstComma s.data).map (fun p => (⟨p.1⟩, ⟨p.2⟩))

/-- `Generator.evalRandomInt`.  `mathrand.Int63n(n)` is the oracle draw
reduced into `[0, n)` by `emod` (its contract; `n ≥ 1` holds at the call). -/
def evalRandomInt (env : GenEnv) (token : String) : String :=
  match parseArgs token "random.int(" with
  | none => matchTok token
  | some args =>
    match splitN2 args with
    | none => matchTok token
    | some (p1, p2) =>
      match parseInt64 (trimGo p1), parseInt64 (trimGo p2) with
      | some mn, some mx =>
        if mx < mn then matchTok token
        else toString (mn + (env.int63n (mx - mn + 1)) % (mx - mn + 1))
      | some _, none => matchTok token
      | none, _ => matchTok token

/-- `Generator.evalRandomFloat`; the formatted `%.4f` output is the oracle's
`floatFmt` of the parsed bounds. -/
def evalRandomFloat (env : GenEnv) (token : String) : String :=
  match parseArgs token "random.float(" with
  | none => matchTok token
  | some args =>
    match splitN2 args with
    | none => matchTok token
    | some (p1, p2) =>
      match env.parseFloat (trimGo p1), env.parseFloat (trimGo p2) with
      | some mn, some mx =>
        if mx < mn then matchTok token else env.floatFmt mn mx
      | some _, none => matchTok token
      | none, _ => matchTok token

/-- `Generator.evalRandomString`. -/
def evalRandomString (env : GenEnv) (token : String) : String :=
  match parseArgs token "random.string(" with
  | none => matchTok token
  | some args =>
    match parseInt64 (trimGo args) with
    | none => matchTok token
    | some n => if n ≤ 0 then matchTok token else env.alnum n.toNat

/-- `Generator.evalRandomChoice`; `strings.Split` always returns at least one
element, the oracle index is reduced into range by `%` (the `Intn`
contract). -/
def evalRandomChoice (env : GenEnv) (token : String) : String :=
  match parseArgs token "random.choice(" with
  | none => matchTok token
  | some args =>
    let choices := (splitComma args).map trimGo
    if choices.length = 0 then matchTok token
    else choices.getD (env.choiceIdx choices.length % choices.length) ""

/-- `Generator.evaluate`: the switch over the (trimmed) token. -/
def evaluate (env : GenEnv) (token : String) : String :=
  if token = "random.uuid" then env.uuid
  else if token = "random.email" then env.email
  else if token = "random.bool" then (if env.boolZero then "true" else "false")
  else if hasPrefixGo token "random.int(" then evalRandomInt env token
  else if hasPrefixGo token "random.float(" then evalRandomFloat env token
  else if hasPrefixGo token "random.string(" then evalRandomString env token
  else if hasPrefixGo token "random.choice(" then evalRandomChoice env token
  else if hasPrefixGo token "var." then
    match lookupVar env.vars ⟨token.data.drop 4⟩ with
    | some v => v
    | none => matchTok token
  else
    match lookupVar env.vars token with
    | some v => v
    | none => "$\x7b" ++ token ++ "\x7d"

/-- Scan for the first `}` (the end of a `[^}]+` match), returning the
characters before it and the remainder after it. -/
def findClose : List Char → Option (List Char × List Char)
  | [] => none
  | c :: cs =>
    if c = '}' then some ([], cs)
    else (findClose cs).map (fun p => (c :: p.1, p.2))

lemma findClose_length :
    ∀ {l a b : List Char}, findClose l = some (a, b) → a.length + 1 + b.length = l.length := by
  intro l
  induction l with
  | nil => intro a b h; exact absurd h (by simp [findClose])
  | cons c cs ih =>
    intro a b h
    rw [findClose] at h
    by_cases hc : c = '}'
    · rw [if_pos hc] at h
      obtain ⟨rfl, rfl⟩ : [] = a ∧ cs = b := by
        constructor <;> injection h with h1 <;> [exact congrArg Prod.fst h1;
          exact congrArg Prod.snd h1]
      simp [Nat.add_comm]
    · rw [if_neg hc] at h
      cases hfc : findClose cs with
      | none => rw [hfc] at h; exact absurd h (by simp)
      | some p =>
        obtain ⟨p1, p2⟩ := p
        rw [hfc] at h
        rw [Option.map] at h
        obtain ⟨rfl, rfl⟩ : c :: p1 = a ∧ p2 = b := by
          constructor <;> injection h with h1 <;> [exact congrArg Prod.fst h1;
            exact congrArg Prod.snd h1]
        have := ih hfc
        simp only [List.length_cons]
        omega

/-- `tokenRegex.ReplaceAllStringFunc(tmpl, ...)`: leftmost-first scan; a
match needs `${`, a non-empty run without `}`, then `}`; its content is
trimmed and evaluated; anything else is copied. -/
def generateChars (env : GenEnv) : List Char → List Char
  | [] => []
  | '$' :: '{' :: rest =>
    (match hfc : findClose rest with
    | some (inner, rest') =>
      if inner.isEmpty then '$' :: generateChars env ('{' :: rest)
      else (evaluate env (trimGo ⟨inner⟩)).data ++ generateChars env rest'
    | none => '$' :: generateChars env ('{' :: rest))
  | c :: cs => c :: generateChars env cs
termination_by l => l.length
decreasing_by
  · simp
  · have := findClose_length hfc
    simp
    omega
  · simp
  · simp

/-- `Generator.Generate`. -/
def generate (env : GenEnv) (tmpl : String) : String :=
  ⟨generateChars env tmpl.data⟩

/-- Whether `random.int(...)` arguments are valid (both bounds parse and
`min ≤ max`): the cases of `evalRandomInt` that do *not* fall through to
`match`. -/
def resolvesInt (token : String) : Bool :=
  match parseArgs token "random.int(" with
  | none => false
  | some args =>
    match splitN2 args with
    | none => false
    | some (p1, p2) =>
      match parseInt64 (trimGo p1), parseInt64 (trimGo p2) with
      | some mn, some mx => decide (mn ≤ mx)
      | some _, none => false
      | none, _ => false

/-- Valid `random.float(...)` arguments, relative to the platform float
parser. -/
def resolvesFloat (env : GenEnv) (token : String) : Bool :=
  match parseArgs token "random.float(" with
  | none => false
  | some args =>
    match splitN2 args with
    | none => false
    | some (p1, p2) =>
      match env.parseFloat (trimGo p1), env.parseFloat (trimGo p2) with
      | some mn, some mx => decide (mn ≤ mx)
      | some _, none => false
      | none, _ => false

/-- Valid `random.string(n)` arguments. -/
def resolvesString (token : String) : Bool :=
  match parseArgs token "random.string(" with
  | none => false
  | some args =>
    match parseInt64 (trimGo args) with
    | none => false
    | some n => decide (0 < n)

/-- Valid `random.choice(...)` arguments (any closed argument list resolves:
`strings.Split` never returns an empty slice). -/
def resolvesChoice (token : String) : Bool :=
  match parseArgs token "random.choice(" with
  | none => false
  | some args => decide (((splitComma args).map trimGo).length ≠ 0)

/-- The token is neither a recognized `random.*` call with valid arguments
nor a defined variable: exactly the cases in which `evaluate` falls through
to the `${token}` pass-through. -/
def unresolvedTok (env : GenEnv) (token : String) : Bool :=
  if token = "random.uuid" then false
  else if token = "random.email" then false
  else if token = "random.bool" then false
  else if hasPrefixGo token "random.int(" then !(resolvesInt token)
  else if hasPrefixGo token "random.float(" then !(resolvesFloat env token)
  else if hasPrefixGo token "random.string(" then !(resolvesString token)
  else if hasPrefixGo token "random.choice(" then !(resolvesChoice token)
  else if hasPrefixGo token "var." then (lookupVar env.vars ⟨token.data.drop 4⟩).isNone
  else (lookupVar env.vars token).isNone

lemma evalRandomInt_passthrough (env : GenEnv) (token : String)
    (h : resolvesInt token = false) : evalRandomInt env token = matchTok token := by
  rw [resolvesInt.eq_def] at h
  rw [evalRandomInt.eq_def]
  cases hp : parseArgs token "random.int(" with
  | none => simp only [hp]
  | some args =>
    simp only [hp] at h ⊢
    cases hs : splitN2 args with
    | none => simp only [hs]
    | some p =>
      obtain ⟨p1, p2⟩ := p
      simp only [hs] at h ⊢
      cases h1 : parseInt64 (trimGo p1) with
      | none => simp only [h1]
      | some mn =>
        cases h2 : parseInt64 (trimGo p2) with
        | none => simp only [h1, h2]
        | some mx =>
          simp only [h1, h2] at h ⊢
          simp only [decide_eq_false_iff_not, not_le] at h
          rw [if_pos h]

lemma evalRandomFloat_passthrough (env : GenEnv) (token : String)
    (h : resolvesFloat env token = false) : evalRandomFloat env token = matchTok token := by
  rw [resolvesFloat.eq_def] at h
  rw [evalRandomFloat.eq_def]
  cases hp : parseArgs token "random.float(" with
  | none => simp only [hp]
  | some args =>
    simp only [hp] at h ⊢
    cases hs : splitN2 args with
    | none => simp only [hs]
    | some p =>
      obtain ⟨p1, p2⟩ := p
      simp only [hs] at h ⊢
      cases h1 : env.parseFloat (trimGo p1) with
      | none => simp only [h1]
      | some mn =>
        cases h2 : env.parseFloat (trimGo p2) with
        | none => simp only [h1, h2]
        | some mx =>
          simp only [h1, h2] at h ⊢
          simp only [decide_eq_false_iff_not, not_le] at h
          rw [if_pos h]

lemma evalRandomString_passthrough (env : GenEnv) (token : String)
    (h : resolvesString token = false) : evalRandomString env token = matchTok token := by
  rw [resolvesString.eq_def] at h
  rw [evalRandomString.eq_def]
  cases hp : parseArgs token "random.string(" with
  | none => simp only [hp]
  | some args =>
    simp only [hp] at h ⊢
    cases h1 : parseInt64 (trimGo args) with
    | none => simp only [h1]
    | some n =>
      simp only [h1] at h ⊢
      simp only [decide_eq_false_iff_not, not_lt] at h
      rw [if_pos (by omega)]

lemma evalRandomChoice_passthrough (env : GenEnv) (token : String)
    (h : resolvesChoice token = false) : evalRandomChoice env token = matchTok token := by
  rw [resolvesChoice.eq_def] at h
  rw [evalRandomChoice.eq_def]
  cases hp : parseArgs token "random.choice(" with
  | none => simp only [hp]
  | some args =>
    simp only [hp] at h ⊢
    simp only [decide_eq_false_iff_not, ne_eq, not_not] at h
    rw [if_pos (by simpa using h)]

lemma bool_not_true {b : Bool} (h : (!b) = true) : b = false := by
  cases b
  · rfl
  · exact absurd h (by decide)

/-- `evaluate` returns the token re-wrapped as `${token}` exactly on
unresolved tokens. -/
lemma evaluate_passthrough (env : GenEnv) (token : String)
    (h : unresolvedTok env token = true) :
    evaluate env token = "$\x7b" ++ token ++ "\x7d" := by
  rw [unresolvedTok] at h
  rw [evaluate]
  by_cases h1 : token = "random.uuid"
  · rw [if_pos h1] at h; exact absurd h (by simp)
  rw [if_neg h1] at h ⊢
  by_cases h2 : token = "random.email"
  · rw [if_pos h2] at h; exact absurd h (by simp)
  rw [if_neg h2] at h ⊢
  by_cases h3 : token = "random.bool"
  · rw [if_pos h3] at h; exact absurd h (by simp)
  rw [if_neg h3] at h ⊢
  by_cases h4 : hasPrefixGo token "random.int(" = true
  · rw [if_pos h4] at h ⊢
    rw [evalRandomInt_passthrough env token (bool_not_true h)]; rfl
  rw [if_neg h4] at h ⊢
  by_cases h5 : hasPrefixGo token "random.float(" = true
  · rw [if_pos h5] at h ⊢
    rw [evalRandomFloat_passthrough env token (bool_not_true h)]; rfl
  rw [if_neg h5] at h ⊢
  by_cases h6 : hasPrefixGo token "random.string(" = true
  · rw [if_pos h6] at h ⊢
    rw [evalRandomString_passthrough env token (bool_not_true h)]; rfl
  rw [if_neg h6] at h ⊢
  by_cases h7 : hasPrefixGo token "random.choice(" = true
  · rw [if_pos h7] at h ⊢
    rw [evalRandomChoice_passthrough env token (bool_not_true h)]; rfl
  rw [if_neg h7] at h ⊢
  by_cases h8 : hasPrefixGo token "var." = true
  · rw [if_pos h8] at h ⊢
    rw [Option.isNone_iff_eq_none] at h
    rw [h]; rfl
  rw [if_neg h8] at h ⊢
  rw [Option.isNone_iff_eq_none] at h
  rw [h]

lemma findClose_append {inner : List Char} (hnc : '}' ∉ inner) (rest : List Char) :
    findClose (inner ++ '}' :: rest) = some (inner, rest) := by
  induction inner with
  | nil => rw [List.nil_append, findClose, if_pos rfl]
  | cons c cs ih =>
    have hc : ¬ c = '}' := fun h => hnc (h ▸ List.mem_cons_self c cs)
    have ih' := ih (fun h => hnc (List.mem_cons_of_mem c h))
    rw [List.cons_append, findClose, if_neg hc, ih']
    rfl

lemma generateChars_nil (env : GenEnv) : generateChars env [] = [] := by
  rw [generateChars]

/-- A leftmost `${...}` match with non-empty `}`-free content is replaced by
the evaluation of its trimmed content, and scanning continues after the
closing brace. -/
lemma generateChars_token (env : GenEnv) (inner rest : List Char)
    (hne : inner ≠ []) (hnc : '}' ∉ inner) :
    generateChars env ('$' :: '{' :: (inner ++ '}' :: rest)) =
      (evaluate env (trimGo ⟨inner⟩)).data ++ generateChars env rest := by
  have hfc : findClose (inner ++ '}' :: rest) = some (inner, rest) := findClose_append hnc rest
  have hemp : inner.isEmpty = false := by
    cases inner
    · exact absurd rfl hne
    · rfl
  rw [generateChars.eq_def]
  simp only [hemp]
  split
  · next inner1 rest1 heq =>
    rw [hfc] at heq
    obtain ⟨rfl, rfl⟩ : inner = inner1 ∧ rest = rest1 := by
      injection heq with heq1
      exact ⟨congrArg Prod.fst heq1, congrArg Prod.snd heq1⟩
    rw [if_neg (by simp [hemp])]
  · next heq =>
    rw [hfc] at heq
    exact absurd heq (by simp)

/-- Environment with no variables and inert oracles, for concrete checks. -/
def genEnv0 : GenEnv :=
  ⟨[], "", "", true, fun _ => 0, fun _ => none, fun _ _ => "", fun _ => "", fun _ => 0⟩

example : evaluate genEnv0 "x" = "$\x7bx\x7d" := by decide
example : evaluate genEnv0 "random.int(1,2x)" = "$\x7brandom.int(1,2x)\x7d" := by decide
example : evaluate ⟨[("x", "v")], "", "", true, fun _ => 0, fun _ => none,
    fun _ _ => "", fun _ => "", fun _ => 0⟩ "x" = "v" := by decide
example : unresolvedTok genEnv0 "q1" = true := by decide
example : trimGo " x " = "x" := by decide

/-- **C8 counterexample.** The claim says unrecognised tokens pass through
*unchanged*; but `Generate` trims the token content before evaluating, so the
undefined-variable token `${ x }` comes out as `${x}`. -/
theorem generate_passthrough_cex :
    generate genEnv0 "$\x7b x \x7d" = "$\x7bx\x7d" ∧
      ("$\x7bx\x7d" : String) ≠ "$\x7b x \x7d" := by
  constructor
  · show (⟨generateChars genEnv0 ("$\x7b x \x7d").data⟩ : String) = "$\x7bx\x7d"
    have h1 : ("$\x7b x \x7d").data = '$' :: '{' :: ([' ', 'x', ' '] ++ '}' :: []) := by decide
    rw [h1, generateChars_token genEnv0 [' ', 'x', ' '] [] (by decide) (by decide)]
    have h2 : trimGo ⟨[' ', 'x', ' ']⟩ = "x" := by decide
    rw [h2]
    have h3 : evaluate genEnv0 "x" = "$\x7bx\x7d" := by decide
    rw [h3, generateChars_nil]
    decide
  · decide

/-- **C8 (amended).** A `${...}` token whose (trimmed) content is neither a
recognized `random.*` call with valid arguments nor a defined variable is
emitted as `${trimmed-content}` — its content trimmed of surrounding
whitespace — with scanning continuing after it; in particular such a token
passes through *unchanged* exactly when its content carries no surrounding
whitespace. -/
theorem generate_unrecognized_token (env : GenEnv) (inner rest : List Char)
    (hne : inner ≠ []) (hnc : '}' ∉ inner)
    (hun : unresolvedTok env (trimGo ⟨inner⟩) = true) :
    generateChars env ('$' :: '{' :: (inner ++ '}' :: rest)) =
      '$' :: '{' :: ((trimGo ⟨inner⟩).data ++ '}' :: generateChars env rest) ∧
    (trimChars inner = inner →
      generateChars env ('$' :: '{' :: (inner ++ '}' :: rest)) =
        '$' :: '{' :: (inner ++ '}' :: generateChars env rest)) := by
  have hmain : generateChars env ('$' :: '{' :: (inner ++ '}' :: rest)) =
      '$' :: '{' :: ((trimGo ⟨inner⟩).data ++ '}' :: generateChars env rest) := by
    rw [generateChars_token env inner rest hne hnc,
      evaluate_passthrough env (trimGo ⟨inner⟩) hun]
    show ("$\x7b".data ++ (trimGo ⟨inner⟩).data ++ ("\x7d").data) ++ _ = _
    simp
  refine ⟨hmain, fun htrim => ?_⟩
  rw [hmain]
  have : (trimGo ⟨inner⟩).data = inner := by
    show trimChars inner = inner
    exact htrim
  rw [this]

/-- Witness for `generate_unrecognized_token` on the undefined variable token
`${q1}`. -/
theorem generate_unrecognized_token_witness :
    generateChars genEnv0 ('$' :: '{' :: (['q', '1'] ++ '}' :: [])) =
      '$' :: '{' :: ((trimGo ⟨['q', '1']⟩).data ++ '}' :: generateChars genEnv0 []) ∧
    (trimChars ['q', '1'] = ['q', '1'] →
      generateChars genEnv0 ('$' :: '{' :: (['q', '1'] ++ '}' :: [])) =
        '$' :: '{' :: (['q', '1'] ++ '}' :: generateChars genEnv0 [])) :=
  generate_unrecognized_token genEnv0 ['q', '1'] [] (by decide) (by decide) (by decide)

end PerfTest
